import Mathlib

/-!
Verification of the runner-nutrition analytics pipeline
(`src/airflow/dags/runner_nutrition_dag.py`).

Shallow embedding conventions:
* Python strings are modelled as `List Char` (`Str`); Python's `s[:n]` is
  `List.take n`, `s.lower()` is `Char.toLower` mapped over the list, and
  `needle in hay` is contiguous-substring containment.
* The warehouse is modelled as a `DB` record holding the raw store table
  (`raw_youtube_videos`) and the processed-identifier ledger
  (`stg_processed_videos`), each as a list of rows in insertion order.
* Timestamps read by the watermark query are modelled as integers
  (seconds since epoch), so `DATEADD(day, -7, now)` is `now - 7 * 86400`.
* The YouTube search API is modelled as a function from a query string to
  `Except Unit (List Item)`: `Except.error` models a raised exception for
  that query (caught and skipped by the loop), `Except.ok` the item list.
* The Snowflake connection is modelled two ways: `load_bronze` gives the
  committed-state semantics of a successful run, and `load_bronze_run`
  makes the transaction explicit (a `Conn` with committed and pending
  state, writes going to pending, `commit` publishing pending) together
  with an injected write failure, to reason about atomicity.
-/

namespace RunnerNutrition

/-- Python strings as character lists. -/
abbrev Str := List Char

/-- `FOOD_KEYWORDS` from the DAG config section. -/
def FOOD_KEYWORDS : List Str :=
  (["carb", "carbs", "carbohydrate", "protein", "fat", "banana",
    "oatmeal", "pasta", "rice", "egg", "chicken", "gel", "energy gel",
    "bar", "protein bar", "coffee", "sports drink", "hydration",
    "yogurt", "milk", "sweet potato", "quinoa", "salmon", "avocado",
    "nuts", "berries", "bread", "bagel", "smoothie", "fruit"] :
    List String).map String.toList

/-- `s.lower()`. -/
def lowerStr (s : Str) : Str := s.map Char.toLower

/-- Does `hay` begin with `needle`? (helper for substring containment). -/
def beginsWith : Str → Str → Bool
  | _, [] => true
  | [], _ :: _ => false
  | c :: cs, d :: ds => c = d && beginsWith cs ds

/-- Python's `needle in hay` on strings: contiguous substring containment. -/
def strContains (hay needle : Str) : Bool :=
  match hay with
  | [] => needle.isEmpty
  | _ :: rest => beginsWith hay needle || strContains rest needle

/-- Python `int(...)` on a (digit) string, as used on `publishedAt[:4]`. -/
def parseDigits (s : Str) : Nat :=
  s.foldl (fun acc c => acc * 10 + (c.toNat - 48)) 0

/-- Shape of one YouTube API search result item, as the code reads it:
`item['id']['videoId']`, `item['snippet']['title']`,
`item['snippet'].get('description', '')` (hence an `Option`),
`item['snippet']['channelTitle']`, `item['snippet']['publishedAt']`. -/
structure Item where
  videoId : Str
  title : Str
  description : Option Str
  channelTitle : Str
  publishedAt : Str
deriving DecidableEq

/-- The in-memory candidate record dict built in `extract_youtube`. -/
structure Video where
  video_id : Str
  title : Str
  description : Str
  channel_title : Str
  published_at : Str
  url : Str
  mentioned_foods : Str
  year : Nat
deriving DecidableEq

/-- The per-item body of the fetch loop (lines 154-171): lower-case title and
description, concatenate with a space, filter the keyword list by substring
membership, and keep the item only when some keyword matched. -/
def processItem (item : Item) : Option Video :=
  let title := lowerStr item.title
  let description := lowerStr (item.description.getD [])
  let text := title ++ ' ' :: description
  let mentioned_foods := FOOD_KEYWORDS.filter (fun f => strContains text f)
  if mentioned_foods.isEmpty then none
  else some {
    video_id := item.videoId
    title := item.title
    description := item.description.getD []
    channel_title := item.channelTitle
    published_at := (item.publishedAt.take 19).map (fun c => if c = 'T' then ' ' else c)
    url := "https://youtube.com/watch?v=".toList ++ item.videoId
    mentioned_foods := List.intercalate [','] mentioned_foods
    year := parseDigits (item.publishedAt.take 4) }

/-- The per-query fetch loop (lines 143-175): each query is issued
independently; a raised error (`Except.error`) is logged and skipped via
`continue`, a successful response contributes its matching items to the
shared `all_videos` accumulator. -/
def fetchVideos (api : Str → Except Unit (List Item)) (queries : List Str) :
    List Video :=
  queries.foldl (fun all_videos q =>
    match api q with
    | Except.ok items => all_videos ++ items.filterMap processItem
    | Except.error _ => all_videos) []

/-- Tail of the dedup loop (lines 177-183), with the seen-set and the output
accumulator made explicit. -/
def dedupGo (seen : List Str) (acc : List Video) : List Video → List Video
  | [] => acc
  | v :: rest =>
    if seen.contains v.video_id then dedupGo seen acc rest
    else dedupGo (v.video_id :: seen) (acc ++ [v]) rest

/-- Deduplicate by `video_id`, keeping the first occurrence (lines 177-183). -/
def dedup (vs : List Video) : List Video := dedupGo [] [] vs

/-- `extract_youtube` minus the watermark read: fetch every query, then
deduplicate the accumulated list. -/
def extract_youtube (api : Str → Except Unit (List Item))
    (queries : List Str) : List Video :=
  dedup (fetchVideos api queries)

/-- SQL `MAX(...)` aggregate over the non-null column values. -/
def sqlMax : List Int → Option Int
  | [] => none
  | x :: xs => some (xs.foldl max x)

/-- The watermark query (lines 116-123):
`COALESCE(MAX(published_at), DATEADD(day, -7, CURRENT_TIMESTAMP()))`. -/
def watermark (publishedTimes : List Int) (now : Int) : Int :=
  match sqlMax publishedTimes with
  | some m => m
  | none => now - 7 * 86400

/-- A row of `raw_youtube_videos` as inserted by the MERGE (lines 232-250). -/
structure RawRecord where
  video_id : Str
  title : Str
  description : Str
  channel_title : Str
  published_at : Str
  url : Str
  mentioned_foods : Str
  year : Nat
deriving DecidableEq

/-- The VALUES tuple of the MERGE insert: string fields truncated as
`title[:500]`, `description[:5000]`, `channel_title[:200]`. -/
def toRawRecord (v : Video) : RawRecord :=
  { video_id := v.video_id
    title := v.title.take 500
    description := v.description.take 5000
    channel_title := v.channel_title.take 200
    published_at := v.published_at
    url := v.url
    mentioned_foods := v.mentioned_foods
    year := v.year }

/-- Warehouse state: the raw store table and the processed-identifier ledger
(`stg_processed_videos` rows are `(video_id, processing_status)`). -/
structure DB where
  raw : List RawRecord
  ledger : List (Str × Str)
deriving DecidableEq

/-- The `video_id` column of the ledger. -/
def ledgerIds (db : DB) : List Str := db.ledger.map Prod.fst

/-- The MERGE statement (lines 232-250): insert only when no row with this
`video_id` is already present. -/
def mergeRaw (raw : List RawRecord) (v : Video) : List RawRecord :=
  if (raw.map RawRecord.video_id).contains v.video_id then raw
  else raw ++ [toRawRecord v]

/-- One iteration of the insert loop (lines 230-256): MERGE into the raw
store, then insert a `SUCCESS` ledger row. -/
def applyVideo (db : DB) (v : Video) : DB :=
  { raw := mergeRaw db.raw v
    ledger := db.ledger ++ [(v.video_id, "SUCCESS".toList)] }

/-- The idempotency filter (lines 213-221): keep the videos whose id is not
among the ledger rows returned by the bulk membership query. -/
def newVideosOf (db : DB) (videos : List Video) : List Video :=
  videos.filter (fun v => !(ledgerIds db).contains v.video_id)

/-- `load_bronze` (lines 197-263), committed-state semantics of a successful
run: `None` or an empty pull returns 0 immediately; otherwise the ledger
filter is applied, an all-duplicate batch returns 0 with no writes, and a
batch with new videos is inserted and committed, returning the insert count. -/
def load_bronze (db : DB) (videos : Option (List Video)) : DB × Nat :=
  match videos with
  | none => (db, 0)
  | some vs =>
    if vs.isEmpty then (db, 0)
    else
      let newVideos := newVideosOf db vs
      if newVideos.isEmpty then (db, 0)
      else (newVideos.foldl applyVideo db, newVideos.length)

/-- Storage operations `load_bronze` can perform against the warehouse. -/
inductive StorageOp
  | connOpen
  | queryLedger (ids : List Str)
  | execMergeRaw (id : Str)
  | execLedgerInsert (id : Str)
  | txnCommit
  | connClose
deriving DecidableEq

/-- Which operations write (mutate persistent state or publish writes). -/
def isWriteOp : StorageOp → Bool
  | StorageOp.execMergeRaw _ => true
  | StorageOp.execLedgerInsert _ => true
  | StorageOp.txnCommit => true
  | _ => false

/-- The trace of storage operations a successful `load_bronze` run performs,
in program order (lines 197-263): nothing at all on an empty pull; connection
open, one bulk ledger query and a close when every id is a duplicate; and the
per-video MERGE + ledger insert pairs followed by a commit otherwise. -/
def loadBronzeOps (db : DB) (videos : Option (List Video)) : List StorageOp :=
  match videos with
  | none => []
  | some vs =>
    if vs.isEmpty then []
    else
      let newVideos := newVideosOf db vs
      StorageOp.connOpen ::
      StorageOp.queryLedger (vs.map Video.video_id) ::
      (if newVideos.isEmpty then [StorageOp.connClose]
       else (newVideos.map (fun v =>
              [StorageOp.execMergeRaw v.video_id,
               StorageOp.execLedgerInsert v.video_id])).flatten
            ++ [StorageOp.txnCommit, StorageOp.connClose])

/-- A warehouse connection: `committed` is the durable state, `pending` the
state seen by this connection's uncommitted writes. -/
structure Conn where
  committed : DB
  pending : DB
deriving DecidableEq

/-- Opening a connection: pending starts at the committed state. -/
def connOpen (db : DB) : Conn := { committed := db, pending := db }

/-- `conn.commit()`: publish the pending writes. -/
def connCommit (c : Conn) : Conn := { committed := c.pending, pending := c.pending }

/-- The insert loop (lines 230-256) with an injected failure: the writes of
the `idx`-th video fail when `failAt = some idx`, raising out of the loop
before `conn.commit()` is reached (`Except.error` carries the connection at
the point of failure); otherwise each video's writes go to pending state. -/
def writeLoop (c : Conn) (vs : List Video) (failAt : Option Nat) (idx : Nat) :
    Except Conn Conn :=
  match vs with
  | [] => Except.ok c
  | v :: rest =>
    if failAt = some idx then Except.error c
    else writeLoop { c with pending := applyVideo c.pending v } rest failAt (idx + 1)

/-- `load_bronze` with the transaction explicit: the function result is the
durable warehouse state after the call together with the call's outcome
(returned count, or the surfaced write error). `conn.commit()` runs only
after the whole loop; a failure propagates with the pending writes never
published. -/
def load_bronze_run (db : DB) (videos : Option (List Video))
    (failAt : Option Nat) : DB × Except Str Nat :=
  match videos with
  | none => (db, Except.ok 0)
  | some vs =>
    if vs.isEmpty then (db, Except.ok 0)
    else
      let c := connOpen db
      let newVideos := newVideosOf c.pending vs
      if newVideos.isEmpty then (c.committed, Except.ok 0)
      else
        match writeLoop c newVideos failAt 0 with
        | Except.ok c2 => ((connCommit c2).committed, Except.ok newVideos.length)
        | Except.error c2 => (c2.committed, Except.error "write failure".toList)

/-- `dedupGo` with the accumulator factored out: the records kept from the
remaining input, given the ids already seen. -/
def dedupFrom (seen : List Str) : List Video → List Video
  | [] => []
  | v :: rest =>
    if seen.contains v.video_id then dedupFrom seen rest
    else v :: dedupFrom (v.video_id :: seen) rest

/-- The connection carried by either outcome of `writeLoop`. -/
def connOf : Except Conn Conn → Conn
  | Except.ok c => c
  | Except.error c => c

/-- The text blob the keyword filter tests (line 157):
lower-cased title, a space, lower-cased description. -/
def blobOf (item : Item) : Str :=
  lowerStr item.title ++ ' ' :: lowerStr (item.description.getD [])

/-- An empty warehouse, for concrete instantiations. -/
def dbEmpty : DB := { raw := [], ledger := [] }

/-- A concrete candidate record, for concrete instantiations. -/
def sampleVideoA : Video :=
  { video_id := "abc123".toList
    title := "Marathon Gel".toList
    description := "banana fueling".toList
    channel_title := "RunChan".toList
    published_at := "2024-06-01 10:00:00".toList
    url := "https://youtube.com/watch?v=abc123".toList
    mentioned_foods := "gel".toList
    year := 2024 }

/-- A second concrete candidate record with a distinct identifier. -/
def sampleVideoB : Video :=
  { sampleVideoA with video_id := "xyz789".toList }

/-- A concrete candidate record whose title has 600 characters. -/
def longTitleVideo : Video :=
  { sampleVideoA with video_id := "long1".toList
                      title := List.replicate 600 'a' }

/-- A concrete API item whose title mentions "marathon gel". -/
def gelItem : Item :=
  { videoId := "abc123".toList
    title := "Marathon Gel".toList
    description := some "fueling tips".toList
    channelTitle := "RunChan".toList
    publishedAt := "2024-06-01T10:00:00Z".toList }

/-- The candidate record `processItem` builds from `gelItem`. -/
def gelVideo : Video :=
  { video_id := "abc123".toList
    title := "Marathon Gel".toList
    description := "fueling tips".toList
    channel_title := "RunChan".toList
    published_at := "2024-06-01 10:00:00".toList
    url := "https://youtube.com/watch?v=abc123".toList
    mentioned_foods := "gel".toList
    year := 2024 }

/-- A concrete API: one query succeeds with `gelItem`, every other fails. -/
def sampleApi : Str → Except Unit (List Item) :=
  fun q => if q = "marathon nutrition".toList then Except.ok [gelItem]
           else Except.error ()

/-! ### Deduplicator lemmas -/

theorem dedupFrom_cons_seen (seen : List Str) (v : Video) (rest : List Video)
    (h : seen.contains v.video_id = true) :
    dedupFrom seen (v :: rest) = dedupFrom seen rest := by
  have hv : v.video_id ∈ seen := by simpa using h
  simp [dedupFrom, hv]

theorem dedupFrom_cons_new (seen : List Str) (v : Video) (rest : List Video)
    (h : seen.contains v.video_id = false) :
    dedupFrom seen (v :: rest) = v :: dedupFrom (v.video_id :: seen) rest := by
  have hv : v.video_id ∉ seen := by simpa using h
  simp [dedupFrom, hv]

theorem dedupGo_eq_append (seen : List Str) (acc : List Video)
    (vs : List Video) : dedupGo seen acc vs = acc ++ dedupFrom seen vs := by
  induction vs generalizing seen acc with
  | nil => simp [dedupGo, dedupFrom]
  | cons v rest ih =>
    cases h : seen.contains v.video_id
    · rw [dedupFrom_cons_new seen v rest h]
      simp only [dedupGo, h, Bool.false_eq_true, if_neg, not_false_iff, ih]
      simp
    · rw [dedupFrom_cons_seen seen v rest h]
      simp only [dedupGo, h, if_pos, ih]

theorem mem_map_dedupFrom (seen : List Str) (vs : List Video) (i : Str) :
    i ∈ (dedupFrom seen vs).map Video.video_id ↔
      i ∈ vs.map Video.video_id ∧ i ∉ seen := by
  induction vs generalizing seen with
  | nil => simp [dedupFrom]
  | cons v rest ih =>
    cases h : seen.contains v.video_id
    · have hv : v.video_id ∉ seen := by simpa using h
      rw [dedupFrom_cons_new seen v rest h]
      simp only [List.map_cons, List.mem_cons, ih, not_or]
      constructor
      · rintro (rfl | ⟨hi, _, hns⟩)
        · exact ⟨Or.inl rfl, hv⟩
        · exact ⟨Or.inr hi, hns⟩
      · rintro ⟨rfl | hi, hns⟩
        · exact Or.inl rfl
        · by_cases hiv : i = v.video_id
          · exact Or.inl hiv
          · exact Or.inr ⟨hi, hiv, hns⟩
    · have hv : v.video_id ∈ seen := List.elem_iff.mp h
      rw [dedupFrom_cons_seen seen v rest h, ih]
      simp only [List.map_cons, List.mem_cons]
      constructor
      · rintro ⟨hi, hns⟩
        exact ⟨Or.inr hi, hns⟩
      · rintro ⟨rfl | hi, hns⟩
        · exact absurd hv hns
        · exact ⟨hi, hns⟩

theorem nodup_map_dedupFrom (seen : List Str) (vs : List Video) :
    ((dedupFrom seen vs).map Video.video_id).Nodup := by
  induction vs generalizing seen with
  | nil => simp [dedupFrom]
  | cons v rest ih =>
    cases h : seen.contains v.video_id
    · rw [dedupFrom_cons_new seen v rest h]
      simp only [List.map_cons, List.nodup_cons]
      refine ⟨fun hm => ?_, ih (v.video_id :: seen)⟩
      exact ((mem_map_dedupFrom _ _ _).mp hm).2 (List.mem_cons_self _ _)
    · rw [dedupFrom_cons_seen seen v rest h]
      exact ih seen

theorem not_mem_seen_of_mem_dedupFrom (seen : List Str) (vs : List Video)
    (x : Video) (hx : x ∈ dedupFrom seen vs) : x.video_id ∉ seen := by
  intro hs
  exact ((mem_map_dedupFrom seen vs x.video_id).mp
    (List.mem_map_of_mem Video.video_id hx)).2 hs

theorem find?_eq_of_mem_dedupFrom (seen : List Str) (vs : List Video)
    (x : Video) (hx : x ∈ dedupFrom seen vs) :
    vs.find? (fun w => w.video_id == x.video_id) = some x := by
  induction vs generalizing seen with
  | nil => simp [dedupFrom] at hx
  | cons v rest ih =>
    cases h : seen.contains v.video_id
    · rw [dedupFrom_cons_new seen v rest h] at hx
      rcases List.mem_cons.mp hx with rfl | hx
      · exact List.find?_cons_of_pos _ (by simp)
      · have hxs : x.video_id ∉ v.video_id :: seen :=
          not_mem_seen_of_mem_dedupFrom _ _ _ hx
        have hne : (v.video_id == x.video_id) = false := by
          apply beq_false_of_ne
          intro he
          exact hxs (he ▸ List.mem_cons_self _ _)
        rw [List.find?_cons_of_neg _ (by simp [hne]), ih _ hx]
    · rw [dedupFrom_cons_seen seen v rest h] at hx
      have hxs : x.video_id ∉ seen := not_mem_seen_of_mem_dedupFrom _ _ _ hx
      have hne : (v.video_id == x.video_id) = false := by
        apply beq_false_of_ne
        intro he
        exact hxs (he ▸ List.elem_iff.mp h)
      rw [List.find?_cons_of_neg _ (by simp [hne]), ih seen hx]

/-- Claim C4: for every input list of candidate records, possibly containing
duplicate external identifiers, the deduplicator returns a list with exactly
one record per distinct identifier of the input, and the record kept for each
identifier is the first occurrence of that identifier in input order. -/
theorem dedup_one_record_per_id_first_occurrence (vs : List Video) :
    ((dedup vs).map Video.video_id).Nodup ∧
    (∀ i : Str, i ∈ (dedup vs).map Video.video_id ↔ i ∈ vs.map Video.video_id) ∧
    (∀ v ∈ dedup vs, vs.find? (fun w => w.video_id == v.video_id) = some v) := by
  have hd : dedup vs = dedupFrom [] vs := by
    rw [dedup, dedupGo_eq_append]
    simp
  refine ⟨?_, ?_, ?_⟩
  · rw [hd]
    exact nodup_map_dedupFrom [] vs
  · intro i
    rw [hd, mem_map_dedupFrom]
    simp
  · intro v hv
    rw [hd] at hv
    exact find?_eq_of_mem_dedupFrom [] vs v hv

/-- Witness for C4: on a concrete list with a duplicated identifier, the
kept record is the first occurrence. -/
theorem dedup_one_record_per_id_first_occurrence_witness :
    [sampleVideoA, sampleVideoB, sampleVideoA].find?
      (fun w => w.video_id == sampleVideoA.video_id) = some sampleVideoA :=
  (dedup_one_record_per_id_first_occurrence
    [sampleVideoA, sampleVideoB, sampleVideoA]).2.2 sampleVideoA (by decide)

/-! ### Substring containment -/

theorem beginsWith_iff (hay needle : Str) :
    beginsWith hay needle = true ↔ needle <+: hay := by
  induction hay generalizing needle with
  | nil =>
    cases needle with
    | nil => simp [beginsWith]
    | cons d ds => simp [beginsWith, List.prefix_nil]
  | cons c cs ih =>
    cases needle with
    | nil => simp [beginsWith, List.nil_prefix]
    | cons d ds =>
      rw [beginsWith, List.cons_prefix_cons, Bool.and_eq_true]
      constructor
      · rintro ⟨h1, h2⟩
        exact ⟨(of_decide_eq_true h1).symm, (ih ds).mp h2⟩
      · rintro ⟨h1, h2⟩
        exact ⟨decide_eq_true h1.symm, (ih ds).mpr h2⟩

theorem strContains_iff (hay needle : Str) :
    strContains hay needle = true ↔ needle <:+: hay := by
  induction hay with
  | nil => simp [strContains, List.isEmpty_iff, List.infix_nil]
  | cons c rest ih =>
    rw [strContains, Bool.or_eq_true, beginsWith_iff, ih, List.infix_cons_iff]

/-- Claim C7: an API item is kept by the fetch loop iff the blob made of its
lower-cased title and description contains at least one configured keyword as
a contiguous substring, and the kept record's `mentioned_foods` records the
comma-joined list of matched keywords; an item matching no keyword yields no
record. -/
theorem processItem_eq (item : Item) :
    processItem item =
      if (FOOD_KEYWORDS.filter (fun k => strContains (blobOf item) k)).isEmpty
      then none
      else some {
        video_id := item.videoId
        title := item.title
        description := item.description.getD []
        channel_title := item.channelTitle
        published_at :=
          (item.publishedAt.take 19).map (fun c => if c = 'T' then ' ' else c)
        url := "https://youtube.com/watch?v=".toList ++ item.videoId
        mentioned_foods := List.intercalate [',']
          (FOOD_KEYWORDS.filter (fun k => strContains (blobOf item) k))
        year := parseDigits (item.publishedAt.take 4) } := rfl

theorem processItem_isSome (item : Item) :
    (processItem item).isSome =
      !(FOOD_KEYWORDS.filter (fun k => strContains (blobOf item) k)).isEmpty := by
  rw [processItem_eq]
  cases hm : (FOOD_KEYWORDS.filter (fun k => strContains (blobOf item) k)).isEmpty
  · simp
  · simp

theorem processItem_mentioned_foods (item : Item) (v : Video)
    (hv : processItem item = some v) :
    v.mentioned_foods = List.intercalate [',']
      (FOOD_KEYWORDS.filter (fun k => strContains (blobOf item) k)) := by
  rw [processItem_eq] at hv
  cases hm : (FOOD_KEYWORDS.filter (fun k => strContains (blobOf item) k)).isEmpty
  · rw [hm] at hv
    simp only [Bool.false_eq_true, if_false] at hv
    rw [← Option.some.inj hv]
  · rw [hm] at hv
    simp at hv

/-- Claim C7: an API item is kept by the fetch loop iff the blob made of its
lower-cased title and description contains at least one configured keyword as
a contiguous substring, and the kept record's `mentioned_foods` records the
comma-joined list of matched keywords; an item matching no keyword yields no
record. -/
theorem keyword_substring_filter (item : Item) :
    ((processItem item).isSome ↔ ∃ k ∈ FOOD_KEYWORDS, k <:+: blobOf item) ∧
    (∀ v, processItem item = some v →
      v.mentioned_foods = List.intercalate [',']
        (FOOD_KEYWORDS.filter (fun k => strContains (blobOf item) k))) := by
  refine ⟨?_, fun v hv => processItem_mentioned_foods item v hv⟩
  rw [show ((processItem item).isSome = true) =
      ((!(FOOD_KEYWORDS.filter (fun k => strContains (blobOf item) k)).isEmpty)
        = true) from by rw [processItem_isSome]]
  constructor
  · intro h
    have hne : FOOD_KEYWORDS.filter (fun k => strContains (blobOf item) k) ≠ [] := by
      intro h0
      rw [h0] at h
      simp at h
    rcases List.exists_mem_of_ne_nil _ hne with ⟨k, hk⟩
    have h2 := List.mem_filter.mp hk
    exact ⟨k, h2.1, (strContains_iff _ _).mp h2.2⟩
  · rintro ⟨k, hk, hinf⟩
    have hkm : k ∈ FOOD_KEYWORDS.filter (fun k => strContains (blobOf item) k) :=
      List.mem_filter.mpr ⟨hk, (strContains_iff _ _).mpr hinf⟩
    cases hm : (FOOD_KEYWORDS.filter (fun k => strContains (blobOf item) k)).isEmpty
    · simp
    · rw [List.isEmpty_iff.mp hm] at hkm
      simp at hkm

/-- Witness for C7: the "marathon gel" item is kept and its record's
`mentioned_foods` is the comma-joined matched-keyword list, here "gel". -/
theorem keyword_substring_filter_witness :
    (processItem gelItem).isSome = true ∧
    gelVideo.mentioned_foods = List.intercalate [',']
      (FOOD_KEYWORDS.filter (fun k => strContains (blobOf gelItem) k)) :=
  ⟨(keyword_substring_filter gelItem).1.mpr
      ⟨"gel".toList, by decide, by decide⟩,
   (keyword_substring_filter gelItem).2 gelVideo (by decide)⟩

/-! ### Watermark -/

theorem le_foldl_max (xs : List Int) (x : Int) : x ≤ xs.foldl max x := by
  induction xs generalizing x with
  | nil => exact le_refl x
  | cons z zs ih => exact le_trans (le_max_left x z) (ih (max x z))

theorem mem_le_foldl_max (xs : List Int) (x y : Int) (hy : y ∈ xs) :
    y ≤ xs.foldl max x := by
  induction xs generalizing x with
  | nil => simp at hy
  | cons z zs ih =>
    rcases List.mem_cons.mp hy with rfl | hy
    · exact le_trans (le_max_right x y) (le_foldl_max zs (max x y))
    · exact ih (max x z) hy

theorem foldl_max_mem (xs : List Int) (x : Int) : xs.foldl max x ∈ x :: xs := by
  induction xs generalizing x with
  | nil => simp
  | cons z zs ih =>
    rcases List.mem_cons.mp (ih (max x z)) with he | hm
    · rcases max_choice x z with hx | hz
      · rw [List.foldl_cons, he, hx]
        exact List.mem_cons_self _ _
      · rw [List.foldl_cons, he, hz]
        exact List.mem_cons_of_mem _ (List.mem_cons_self _ _)
    · exact List.mem_cons_of_mem _ (List.mem_cons_of_mem _ hm)

/-- Claim C6: the watermark query returns the maximum publication timestamp
among previously ingested records when at least one exists, and current time
minus a 7-day lookback (in seconds) when the store has none. -/
theorem watermark_max_or_7day_fallback (rows : List Int) (now : Int) :
    (rows = [] → watermark rows now = now - 7 * 86400) ∧
    (rows ≠ [] → watermark rows now ∈ rows ∧
      ∀ t ∈ rows, t ≤ watermark rows now) := by
  constructor
  · rintro rfl
    rfl
  · intro hne
    cases rows with
    | nil => exact absurd rfl hne
    | cons x xs =>
      have hw : watermark (x :: xs) now = xs.foldl max x := rfl
      rw [hw]
      refine ⟨foldl_max_mem xs x, ?_⟩
      intro t ht
      rcases List.mem_cons.mp ht with rfl | ht
      · exact le_foldl_max xs t
      · exact mem_le_foldl_max xs x t ht

/-- Witness for C6: concrete empty and non-empty stores. -/
theorem watermark_max_or_7day_fallback_witness :
    watermark [] 1000000 = 1000000 - 7 * 86400 ∧
    watermark [5, 3, 9] 1000000 ∈ [(5 : Int), 3, 9] :=
  ⟨(watermark_max_or_7day_fallback [] 1000000).1 rfl,
   ((watermark_max_or_7day_fallback [5, 3, 9] 1000000).2 (by decide)).1⟩

/-! ### Idempotent loader lemmas -/

theorem load_bronze_some_insert (db : DB) (vs : List Video)
    (he : vs.isEmpty = false) (hN : (newVideosOf db vs).isEmpty = false) :
    load_bronze db (some vs) =
      ((newVideosOf db vs).foldl applyVideo db, (newVideosOf db vs).length) := by
  simp [load_bronze, he, hN]

theorem load_bronze_some_noop (db : DB) (vs : List Video)
    (hN : (newVideosOf db vs).isEmpty = true) :
    load_bronze db (some vs) = (db, 0) := by
  cases he : vs.isEmpty
  · simp [load_bronze, he, hN]
  · simp [load_bronze, he]

theorem foldl_applyVideo_ledger (vs : List Video) (d : DB) :
    (vs.foldl applyVideo d).ledger =
      d.ledger ++ vs.map (fun v => (v.video_id, "SUCCESS".toList)) := by
  induction vs generalizing d with
  | nil => simp
  | cons v rest ih =>
    rw [List.foldl_cons, ih]
    simp [applyVideo]

theorem ledgerIds_foldl (vs : List Video) (d : DB) :
    ledgerIds (vs.foldl applyVideo d) = ledgerIds d ++ vs.map Video.video_id := by
  rw [ledgerIds, foldl_applyVideo_ledger]
  simp [ledgerIds, Function.comp]

theorem mem_raw_foldl (vs : List Video) (d : DB) (r : RawRecord)
    (hr : r ∈ (vs.foldl applyVideo d).raw) :
    r ∈ d.raw ∨ ∃ v ∈ vs, r = toRawRecord v := by
  induction vs generalizing d with
  | nil => exact Or.inl hr
  | cons v rest ih =>
    rw [List.foldl_cons] at hr
    rcases ih (applyVideo d v) hr with hd | ⟨w, hw, hrw⟩
    · by_cases hc : v.video_id ∈ d.raw.map RawRecord.video_id
      · rw [show (applyVideo d v).raw = d.raw from by
          simp [applyVideo, mergeRaw, hc]] at hd
        exact Or.inl hd
      · rw [show (applyVideo d v).raw = d.raw ++ [toRawRecord v] from by
          simp [applyVideo, mergeRaw, hc]] at hd
        rcases List.mem_append.mp hd with h1 | h2
        · exact Or.inl h1
        · exact Or.inr ⟨v, List.mem_cons_self _ _, by simpa using h2⟩
    · exact Or.inr ⟨w, List.mem_cons_of_mem _ hw, hrw⟩

theorem filter_raw_foldl (i : Str) (vs : List Video) (d : DB)
    (h : ∀ v ∈ vs, v.video_id ≠ i) :
    ((vs.foldl applyVideo d).raw.filter (fun r => r.video_id == i)) =
      d.raw.filter (fun r => r.video_id == i) := by
  induction vs generalizing d with
  | nil => rfl
  | cons v rest ih =>
    rw [List.foldl_cons, ih _ (fun w hw => h w (List.mem_cons_of_mem _ hw))]
    have hv := h v (List.mem_cons_self _ _)
    by_cases hc : v.video_id ∈ d.raw.map RawRecord.video_id
    · rw [show (applyVideo d v).raw = d.raw from by
        simp [applyVideo, mergeRaw, hc]]
    · rw [show (applyVideo d v).raw = d.raw ++ [toRawRecord v] from by
        simp [applyVideo, mergeRaw, hc]]
      rw [List.filter_append]
      have hb : (v.video_id == i) = false := beq_false_of_ne hv
      simp [toRawRecord, hb]

/-- Claim C9: the loader returns the number of candidate records whose
identifier was not already in the ledger, and in particular 0 on an absent
or empty batch and 0 when every identifier is already in the ledger. -/
theorem load_bronze_returns_new_count (db : DB) (videos : Option (List Video)) :
    (load_bronze db videos).2 =
      ((videos.getD []).filter
        (fun v => !(ledgerIds db).contains v.video_id)).length := by
  cases videos with
  | none => rfl
  | some vs =>
    cases he : vs.isEmpty
    · cases hN : (newVideosOf db vs).isEmpty
      · rw [load_bronze_some_insert db vs he hN]
        rfl
      · rw [load_bronze_some_noop db vs hN]
        have h0 : newVideosOf db vs = [] := List.isEmpty_iff.mp hN
        rw [newVideosOf] at h0
        show 0 = (vs.filter (fun v => !(ledgerIds db).contains v.video_id)).length
        rw [h0]
        rfl
    · have hb := List.isEmpty_iff.mp he
      subst hb
      rfl

/-- Claim C10: on an absent (`none`) or empty input batch the loader returns
0, leaves the warehouse untouched, and performs no storage operation at all:
no connection open, no ledger query, no write. -/
theorem load_bronze_empty_batch_no_storage_access (db : DB) :
    load_bronze db none = (db, 0) ∧ load_bronze db (some []) = (db, 0) ∧
    loadBronzeOps db none = [] ∧ loadBronzeOps db (some []) = [] :=
  ⟨rfl, rfl, rfl, rfl⟩

/-- Claim C3: an identifier present in the ledger with success status before
a load is never re-inserted into the raw store: the raw-store rows carrying
that identifier are exactly the same after any run of the loader. -/
theorem ledger_success_never_reinserted (db : DB) (videos : Option (List Video))
    (i : Str) (h : (i, "SUCCESS".toList) ∈ db.ledger) :
    (load_bronze db videos).1.raw.filter (fun r => r.video_id == i) =
      db.raw.filter (fun r => r.video_id == i) := by
  cases videos with
  | none => rfl
  | some vs =>
    cases hN : (newVideosOf db vs).isEmpty
    · cases he : vs.isEmpty
      · rw [load_bronze_some_insert db vs he hN]
        show ((newVideosOf db vs).foldl applyVideo db).raw.filter
          (fun r => r.video_id == i) = db.raw.filter (fun r => r.video_id == i)
        apply filter_raw_foldl
        intro v hv heq
        have hmem := List.mem_filter.mp hv
        have hi : i ∈ ledgerIds db := List.mem_map_of_mem Prod.fst h
        have hni : v.video_id ∉ ledgerIds db := by simpa using hmem.2
        exact hni (heq ▸ hi)
      · have hb := List.isEmpty_iff.mp he
        subst hb
        simp [newVideosOf] at hN
    · rw [load_bronze_some_noop db vs hN]

/-- Witness for C3: a concrete ledger holding a success entry for "abc123"
and a batch containing a record with that same identifier. -/
theorem ledger_success_never_reinserted_witness :
    (load_bronze { raw := [], ledger := [("abc123".toList, "SUCCESS".toList)] }
        (some [sampleVideoA])).1.raw.filter
      (fun r => r.video_id == "abc123".toList) =
    (DB.mk [] [("abc123".toList, "SUCCESS".toList)]).raw.filter
      (fun r => r.video_id == "abc123".toList) :=
  ledger_success_never_reinserted
    { raw := [], ledger := [("abc123".toList, "SUCCESS".toList)] }
    (some [sampleVideoA]) "abc123".toList (by decide)

/-- Claim C1: running the loader twice with the same deduplicated batch
leaves the warehouse exactly as after the first run — the second invocation
returns the first run's state unchanged with count 0 — and the second
invocation's storage trace contains no write operation. -/
theorem load_bronze_idempotent (db : DB) (batch : List Video)
    (hdedup : (batch.map Video.video_id).Nodup) :
    load_bronze (load_bronze db (some batch)).1 (some batch) =
      ((load_bronze db (some batch)).1, 0) ∧
    (loadBronzeOps (load_bronze db (some batch)).1 (some batch)).filter
      isWriteOp = [] := by
  cases he : batch.isEmpty with
  | true =>
    have hb := List.isEmpty_iff.mp he
    subst hb
    exact ⟨rfl, rfl⟩
  | false =>
    cases hN : (newVideosOf db batch).isEmpty with
    | true =>
      have h1 : load_bronze db (some batch) = (db, 0) :=
        load_bronze_some_noop db batch hN
      rw [h1]
      constructor
      · show load_bronze db (some batch) = (db, 0)
        exact load_bronze_some_noop db batch hN
      · show (loadBronzeOps db (some batch)).filter isWriteOp = []
        have h2 : loadBronzeOps db (some batch) =
            [StorageOp.connOpen,
             StorageOp.queryLedger (batch.map Video.video_id),
             StorageOp.connClose] := by
          simp [loadBronzeOps, he, hN]
        rw [h2]
        rfl
    | false =>
      have h1 : load_bronze db (some batch) =
          ((newVideosOf db batch).foldl applyVideo db,
           (newVideosOf db batch).length) :=
        load_bronze_some_insert db batch he hN
      have hall : ∀ v ∈ batch,
          v.video_id ∈ ledgerIds ((newVideosOf db batch).foldl applyVideo db) := by
        intro v hv
        rw [ledgerIds_foldl]
        by_cases hc : v.video_id ∈ ledgerIds db
        · exact List.mem_append.mpr (Or.inl hc)
        · have hvN : v ∈ newVideosOf db batch := by
            rw [newVideosOf]
            refine List.mem_filter.mpr ⟨hv, ?_⟩
            simp [hc]
          exact List.mem_append.mpr
            (Or.inr (List.mem_map_of_mem Video.video_id hvN))
      have hN2 : (newVideosOf ((newVideosOf db batch).foldl applyVideo db)
          batch).isEmpty = true := by
        apply List.isEmpty_iff.mpr
        rw [newVideosOf]
        apply List.filter_eq_nil_iff.mpr
        intro v hv
        simp [hall v hv]
      constructor
      · rw [h1]
        show load_bronze ((newVideosOf db batch).foldl applyVideo db)
          (some batch) = ((newVideosOf db batch).foldl applyVideo db, 0)
        exact load_bronze_some_noop _ batch hN2
      · rw [h1]
        show (loadBronzeOps ((newVideosOf db batch).foldl applyVideo db)
          (some batch)).filter isWriteOp = []
        have h2 : loadBronzeOps ((newVideosOf db batch).foldl applyVideo db)
            (some batch) =
            [StorageOp.connOpen,
             StorageOp.queryLedger (batch.map Video.video_id),
             StorageOp.connClose] := by
          simp [loadBronzeOps, he, hN2]
        rw [h2]
        rfl

/-- Witness for C1: a concrete one-record batch loaded twice into an empty
warehouse; the second run changes nothing and returns 0. -/
theorem load_bronze_idempotent_witness :
    load_bronze (load_bronze dbEmpty (some [sampleVideoA])).1
        (some [sampleVideoA]) =
      ((load_bronze dbEmpty (some [sampleVideoA])).1, 0) :=
  (load_bronze_idempotent dbEmpty [sampleVideoA] (by decide)).1

/-- Claim C8: every record the loader newly inserts into the raw store is the
truncation of a batch record: title cut to 500 characters, description to
5000, channel name to 200 (`length (take n s) = min n (length s)` makes the
bounds explicit). -/
theorem inserted_records_truncated (db : DB) (batch : List Video)
    (r : RawRecord) (hr : r ∈ (load_bronze db (some batch)).1.raw)
    (hnew : r ∉ db.raw) :
    ∃ v ∈ batch, r = toRawRecord v ∧
      r.title = v.title.take 500 ∧
      r.description = v.description.take 5000 ∧
      r.channel_title = v.channel_title.take 200 ∧
      r.title.length = min 500 v.title.length ∧
      r.description.length = min 5000 v.description.length ∧
      r.channel_title.length = min 200 v.channel_title.length := by
  cases hN : (newVideosOf db batch).isEmpty with
  | true =>
    rw [load_bronze_some_noop db batch hN] at hr
    exact absurd hr hnew
  | false =>
    cases he : batch.isEmpty with
    | true =>
      have hb := List.isEmpty_iff.mp he
      subst hb
      simp [newVideosOf] at hN
    | false =>
      rw [load_bronze_some_insert db batch he hN] at hr
      rcases mem_raw_foldl _ _ _ hr with hd | ⟨v, hv, rfl⟩
      · exact absurd hd hnew
      · exact ⟨v, (List.mem_filter.mp hv).1, rfl, rfl, rfl, rfl,
          List.length_take _ _, List.length_take _ _, List.length_take _ _⟩

set_option maxRecDepth 100000 in
/-- Witness for C8: a 600-character title is persisted as exactly its first
500 characters. -/
theorem inserted_records_truncated_witness :
    (∃ v ∈ [longTitleVideo], toRawRecord longTitleVideo = toRawRecord v ∧
      (toRawRecord longTitleVideo).title = v.title.take 500 ∧
      (toRawRecord longTitleVideo).description = v.description.take 5000 ∧
      (toRawRecord longTitleVideo).channel_title = v.channel_title.take 200 ∧
      (toRawRecord longTitleVideo).title.length = min 500 v.title.length ∧
      (toRawRecord longTitleVideo).description.length =
        min 5000 v.description.length ∧
      (toRawRecord longTitleVideo).channel_title.length =
        min 200 v.channel_title.length) ∧
    longTitleVideo.title.length = 600 ∧
    (toRawRecord longTitleVideo).title.length = 500 ∧
    (toRawRecord longTitleVideo).title = longTitleVideo.title.take 500 :=
  ⟨inserted_records_truncated dbEmpty [longTitleVideo]
      (toRawRecord longTitleVideo) (by decide) (by decide),
   by decide, by decide, by decide⟩

/-! ### Transactional loader lemmas -/

theorem writeLoop_committed (vs : List Video) (c : Conn) (failAt : Option Nat)
    (idx : Nat) :
    (connOf (writeLoop c vs failAt idx)).committed = c.committed := by
  induction vs generalizing c idx with
  | nil => rfl
  | cons v rest ih =>
    simp only [writeLoop]
    by_cases hf : failAt = some idx
    · rw [if_pos hf]
      rfl
    · rw [if_neg hf]
      exact ih _ (idx + 1)

theorem writeLoop_none (vs : List Video) (c : Conn) (idx : Nat) :
    writeLoop c vs none idx =
      Except.ok { c with pending := vs.foldl applyVideo c.pending } := by
  induction vs generalizing c idx with
  | nil => rfl
  | cons v rest ih =>
    simp only [writeLoop, List.foldl_cons]
    rw [if_neg (by simp)]
    exact ih _ (idx + 1)

theorem writeLoop_fails (vs : List Video) (c : Conn) (idx k : Nat)
    (hk : k < vs.length) :
    ∃ c2, writeLoop c vs (some (idx + k)) idx = Except.error c2 := by
  induction vs generalizing c idx k with
  | nil => simp at hk
  | cons v rest ih =>
    cases k with
    | zero => exact ⟨c, by simp [writeLoop]⟩
    | succ k2 =>
      have hne : ¬(some (idx + (k2 + 1)) = some idx) := by
        intro hcontra
        have := Option.some.inj hcontra
        omega
      simp only [writeLoop]
      rw [if_neg hne]
      have harr : idx + (k2 + 1) = (idx + 1) + k2 := by omega
      rw [harr]
      exact ih _ (idx + 1) k2 (by simpa using hk)

theorem load_bronze_run_insert (db : DB) (vs : List Video) (failAt : Option Nat)
    (he : vs.isEmpty = false) (hN : (newVideosOf db vs).isEmpty = false) :
    load_bronze_run db (some vs) failAt =
      (match writeLoop (connOpen db) (newVideosOf db vs) failAt 0 with
       | Except.ok c2 =>
          ((connCommit c2).committed, Except.ok (newVideosOf db vs).length)
       | Except.error c2 =>
          (c2.committed, Except.error "write failure".toList)) := by
  simp [load_bronze_run, connOpen, he, hN]

/-- Claim C2: for a non-empty batch, the loader's writes are committed as one
transaction only after every record is processed; if the writes of any record
fail, the durable warehouse state is exactly the pre-call state (nothing of
the batch is persisted) and the error is surfaced; without a failure the
whole batch is committed, matching `load_bronze`'s committed semantics. -/
theorem load_bronze_atomic (db : DB) (batch : List Video) (k : Nat)
    (hne : batch ≠ []) (hk : k < (newVideosOf db batch).length) :
    (load_bronze_run db (some batch) (some k)).1 = db ∧
    (load_bronze_run db (some batch) (some k)).2 =
      Except.error "write failure".toList ∧
    load_bronze_run db (some batch) none =
      ((load_bronze db (some batch)).1,
       Except.ok (load_bronze db (some batch)).2) := by
  have he : batch.isEmpty = false := by
    cases batch with
    | nil => exact absurd rfl hne
    | cons b bs => rfl
  have hNne : newVideosOf db batch ≠ [] := by
    intro h0
    rw [h0] at hk
    simp at hk
  have hN : (newVideosOf db batch).isEmpty = false := by
    cases h2 : newVideosOf db batch with
    | nil => exact absurd h2 hNne
    | cons n ns => rfl
  obtain ⟨c2, hw⟩ :=
    writeLoop_fails (newVideosOf db batch) (connOpen db) 0 k (by simpa using hk)
  rw [Nat.zero_add] at hw
  have hcommitted : c2.committed = db := by
    have h3 := writeLoop_committed (newVideosOf db batch) (connOpen db) (some k) 0
    rw [hw] at h3
    exact h3
  refine ⟨?_, ?_, ?_⟩
  · rw [load_bronze_run_insert db batch (some k) he hN, hw]
    exact hcommitted
  · rw [load_bronze_run_insert db batch (some k) he hN, hw]
  · rw [load_bronze_run_insert db batch none he hN,
      writeLoop_none (newVideosOf db batch) (connOpen db) 0,
      load_bronze_some_insert db batch he hN]
    rfl

/-- Witness for C2: a concrete failing run over an empty warehouse leaves it
empty and surfaces the write error. -/
theorem load_bronze_atomic_witness :
    (load_bronze_run dbEmpty (some [sampleVideoA]) (some 0)).1 = dbEmpty ∧
    (load_bronze_run dbEmpty (some [sampleVideoA]) (some 0)).2 =
      Except.error "write failure".toList :=
  ⟨(load_bronze_atomic dbEmpty [sampleVideoA] 0 (by decide) (by decide)).1,
   (load_bronze_atomic dbEmpty [sampleVideoA] 0 (by decide) (by decide)).2.1⟩

/-! ### Source fetcher -/

theorem fetchVideos_foldl (api : Str → Except Unit (List Item))
    (queries : List Str) (acc : List Video) :
    queries.foldl (fun all_videos q =>
      match api q with
      | Except.ok items => all_videos ++ items.filterMap processItem
      | Except.error _ => all_videos) acc =
    acc ++ ((queries.filterMap (fun q => (api q).toOption)).flatten).filterMap
      processItem := by
  induction queries generalizing acc with
  | nil => simp
  | cons q rest ih =>
    cases hq : api q with
    | ok items =>
      simp [List.foldl_cons, hq, ih, Except.toOption]
    | error e =>
      simp [List.foldl_cons, hq, ih, Except.toOption]

/-- Claim C5: when some topic queries fail and others succeed, the fetch does
not raise: the failing queries are skipped and the result is the
deduplication of the union, in query order, of the successful queries'
matching items. -/
theorem source_fetch_partial_failure (api : Str → Except Unit (List Item))
    (queries : List Str)
    (_hfail : ∃ q ∈ queries, (api q).toOption = none)
    (_hok : ∃ q ∈ queries, (api q).toOption ≠ none) :
    extract_youtube api queries =
      dedup (((queries.filterMap (fun q => (api q).toOption)).flatten).filterMap
        processItem) := by
  rw [extract_youtube, fetchVideos, fetchVideos_foldl]
  rw [List.nil_append]

/-- Witness for C5: a two-query run where one query succeeds and the other
raises; the result is the dedup of the successful query's matches. -/
theorem source_fetch_partial_failure_witness :
    extract_youtube sampleApi
        ["marathon nutrition".toList, "running diet".toList] =
      dedup (((["marathon nutrition".toList, "running diet".toList].filterMap
        (fun q => (sampleApi q).toOption)).flatten).filterMap processItem) :=
  source_fetch_partial_failure sampleApi
    ["marathon nutrition".toList, "running diet".toList]
    (by decide) (by decide)

end RunnerNutrition
